import Mathlib

/-!
Shallow embedding of `src/utilities/bitmart_perp.py` (class `PerpBitmart`),
a normalization adapter between a trading caller and the ccxt connectivity
library.  Python floats and `Decimal` values are modelled as exact rationals
(`ℚ`); the `getcontext().prec = 10` significand rounding is abstracted away,
matching the spec's "within floating-point tolerance" reading.  Fallible
Python code (raised exceptions) is modelled with `Except Err`.  Calls into
the ccxt connectivity layer are oracle parameters: each call site receives
the call's outcome (`Except Err`-valued) as an explicit argument.
-/

/-- Exception classes that the adapter's code paths can raise or receive from
the connectivity layer.  `divisionByZero` models `decimal.DivisionByZero`
(raised by `x / 0` with `x ≠ 0`); `invalidOperation` models
`decimal.InvalidOperation` (raised by `0 / 0`); `indexError` models an
out-of-range subscript; `typeError` models subscripting `None`; `keyError`
models a missing dict key; `validationError` models the explicit
`raise Exception(...)` in `set_margin_mode_and_leverage`; `connectivity`
stands for an arbitrary error surfaced by the ccxt layer. -/
inductive Err where
  | divisionByZero
  | invalidOperation
  | indexError
  | typeError
  | keyError
  | validationError (msg : String)
  | connectivity (code : Nat)
deriving DecidableEq

instance {ε α : Type} [DecidableEq ε] [DecidableEq α] : DecidableEq (Except ε α) := fun x y =>
  match x, y with
  | .ok a, .ok b =>
    if h : a = b then isTrue (by rw [h]) else isFalse (fun hc => h (Except.ok.inj hc))
  | .error a, .error b =>
    if h : a = b then isTrue (by rw [h]) else isFalse (fun hc => h (Except.error.inj hc))
  | .ok _, .error _ => isFalse (fun hc => Except.noConfusion hc)
  | .error _, .ok _ => isFalse (fun hc => Except.noConfusion hc)

/-- Division of Python `Decimal`s: `a / b` raises `decimal.DivisionByZero`
when `b = 0 ≠ a`, `decimal.InvalidOperation` when `a = b = 0`, and otherwise
returns the exact quotient. -/
def decDiv (a b : ℚ) : Except Err ℚ :=
  if b = 0 then
    if a = 0 then .error .invalidOperation else .error .divisionByZero
  else .ok (a / b)

/-- Round a rational to the nearest integer, ties to even: the tie-breaking
rule of Python's builtin `round`. -/
def roundHalfEven (q : ℚ) : ℤ :=
  let f : ℤ := ⌊q⌋
  let r : ℚ := q - (f : ℚ)
  if r < 1 / 2 then f
  else if 1 / 2 < r then f + 1
  else if f % 2 = 0 then f else f + 1

/-- Python `round(x, 2)`: round to two decimal places, ties to even. -/
def pyRound2 (q : ℚ) : ℚ := (roundHalfEven (q * 100) : ℚ) / 100

/-- One step bound of `stripAll`: embedding of Python `str.replace(pat, "")`
for a nonempty pattern, which scans left to right removing every
non-overlapping occurrence of `pat`.  The fuel argument makes the recursion
structural; `stripAll` supplies fuel `s.length`, which is enough because
every step consumes at least one character of `s`. -/
def stripAllGo (pat : List Char) : Nat → List Char → List Char
  | 0, s => s
  | _ + 1, [] => []
  | fuel + 1, c :: rest =>
    if pat.isPrefixOf (c :: rest) then stripAllGo pat fuel ((c :: rest).drop pat.length)
    else c :: stripAllGo pat fuel rest

/-- Embedding of Python `s.replace(pat, "")` for a nonempty pattern `pat`. -/
def stripAll (pat s : List Char) : List Char := stripAllGo pat s.length s

/-- Embedding of `PerpBitmart.ext_pair_to_pair`: external pair to ccxt internal pair,
an f-string append of `":USDT"`. -/
def ext_pair_to_pair (ext_pair : String) : String := ext_pair ++ ":USDT"

/-- Embedding of `PerpBitmart.pair_to_ext_pair`: `pair.replace(":USDT", "")`. -/
def pair_to_ext_pair (pair : String) : String :=
  ⟨stripAll ":USDT".toList pair.toList⟩

/-- Well-formed external pair strings (`"BTC-USDT"` and the like): the colon
is exactly the marker of the internal form, so an external pair contains no
colon character. -/
def WellFormedExtPair (p : String) : Prop := ':' ∉ p.toList

instance (p : String) : Decidable (WellFormedExtPair p) := by
  unfold WellFormedExtPair; infer_instance

/-- Normalized balance record (pydantic model `UsdtBalance`). -/
structure UsdtBalance where
  total : ℚ
  free : ℚ
  used : ℚ
deriving DecidableEq

/-- Success-flag-plus-message record (pydantic model `Info`). -/
structure Info where
  success : Bool
  message : String
deriving DecidableEq

/-- Normalized order record (pydantic model `Order`). -/
structure Order where
  id : String
  pair : String
  type : String
  side : String
  price : ℚ
  size : ℚ
  reduce : Bool
  filled : ℚ
  remaining : ℚ
  timestamp : Int
deriving DecidableEq

/-- Normalized position record (pydantic model `Position`). -/
structure Position where
  pair : String
  side : String
  size : ℚ
  usd_size : ℚ
  entry_price : ℚ
  current_price : ℚ
  unrealizedPnl : ℚ
  liquidation_price : ℚ
  margin_mode : String
  leverage : ℚ
  hedge_mode : Bool
  open_timestamp : Int
  take_profit_price : ℚ
  stop_loss_price : ℚ
deriving DecidableEq

/-- Market metadata for one pair, as consumed by the adapter: only the
`contractSize` entry of the ccxt market dict is read. -/
structure PairInfo where
  contractSize : ℚ
deriving DecidableEq

/-- The `self.market` dict loaded by `load_markets`, as an association list
from internal pair strings to their metadata. -/
abbrev Market : Type := List (String × PairInfo)

/-- Embedding of `PerpBitmart.get_pair_info`: return `self.market[pair]` when the internal
form of `ext_pair` is a key of the loaded market dict, else `None`. -/
def get_pair_info (market : Market) (ext_pair : String) : Option PairInfo :=
  let pair := ext_pair_to_pair ext_pair
  match (List.find? (fun kv => kv.1 == pair) market) with
  | some kv => some kv.2
  | none => none

/-- One entry of the raw `resp["info"]["data"]` list in `get_balance`. -/
structure RawBalanceEntry where
  currency : String
  equity : ℚ
  available_balance : ℚ
  position_deposit : ℚ
deriving DecidableEq

/-- Embedding of `PerpBitmart.get_balance`, given the raw `resp["info"]["data"]` payload
returned by the connectivity layer's `fetch_balance`: filter to the entries
with `currency == "USDT"`, subscript the first (`[0]` raises `IndexError`
on an empty list), and map `equity/available_balance/position_deposit` to
`total/free/used`. -/
def get_balance (resp_data : List RawBalanceEntry) : Except Err UsdtBalance :=
  match (resp_data.filter (fun r => r.currency == "USDT")).head? with
  | some usdt_data =>
    .ok { total := usdt_data.equity
          free := usdt_data.available_balance
          used := usdt_data.position_deposit }
  | none => .error .indexError

/-- A call into the connectivity layer, recorded so that theorems can state
that no network call happens on a local-validation failure. -/
inductive NetCall where
  | setLeverage (leverage : Int) (pair : String) (open_type marginMode : String)
deriving DecidableEq

/-- Embedding of `PerpBitmart.set_margin_mode_and_leverage`: validate the margin mode
locally (raising before any connectivity call for a value outside
`{cross, isolated}`), then call `set_leverage`, re-raising its error
unchanged; on success return an `Info` record.  `set_leverage_result` is the
oracle outcome of the connectivity call; the second component of the result
is the trace of connectivity calls actually issued.  The apostrophes of the
Python error message are elided. -/
def set_margin_mode_and_leverage (pair margin_mode : String) (leverage : Int)
    (set_leverage_result : Except Err Unit) : Except Err Info × List NetCall :=
  if margin_mode ∈ (["cross", "isolated"] : List String) then
    let p := ext_pair_to_pair pair
    let calls := [NetCall.setLeverage leverage p margin_mode margin_mode]
    match set_leverage_result with
    | .error e => (.error e, calls)
    | .ok _ =>
      (.ok { success := true
             message := "Margin mode and leverage set to " ++ margin_mode ++ " and "
               ++ toString leverage ++ "x" }, calls)
  else
    (.error (.validationError "Margin mode must be either cross or isolated"), [])

/-- One entry of the raw list returned by the connectivity layer's
`fetch_positions`, with the fields this adapter reads.  ccxt reports the
optional price fields and the hedge flag as possibly `None` (`Option`);
`info_margin_type` and `info_open_timestamp` model
`position["info"]["margin_type"]` and `position["info"]["open_timestamp"]`. -/
structure RawPosition where
  symbol : String
  side : String
  contracts : ℚ
  contractSize : ℚ
  markPrice : ℚ
  entryPrice : ℚ
  unrealizedPnl : ℚ
  liquidationPrice : Option ℚ
  takeProfitPrice : Option ℚ
  stopLossPrice : Option ℚ
  hedged : Option Bool
  leverage : ℚ
  info_margin_type : String
  info_open_timestamp : Int
deriving DecidableEq

/-- Python truthiness of an optional number: `None` and `0` are falsy.
`if position[k]: x = position[k]` leaves the default `0` exactly when the
raw field is falsy. -/
def falsyDefault0 : Option ℚ → ℚ
  | none => 0
  | some v => if v = 0 then 0 else v

/-- Loop body of `PerpBitmart.get_open_positions` for one raw position:
`size` is `contracts * contractSize` and `current_price` is re-derived as
`markPrice / (contracts * contractSize)` with `Decimal` arithmetic, whose
division by a zero denominator raises; `usd_size` is `round(markPrice, 2)`;
the optional fields default to `0`/`False` when falsy. -/
def normalize_position (p : RawPosition) : Except Err Position :=
  match decDiv p.markPrice (p.contracts * p.contractSize) with
  | .error e => .error e
  | .ok current_price =>
    .ok { pair := pair_to_ext_pair p.symbol
          side := p.side
          size := p.contracts * p.contractSize
          usd_size := pyRound2 p.markPrice
          entry_price := p.entryPrice
          current_price := current_price
          unrealizedPnl := p.unrealizedPnl
          liquidation_price := falsyDefault0 p.liquidationPrice
          margin_mode := p.info_margin_type
          leverage := p.leverage
          hedge_mode := match p.hedged with | some true => true | _ => false
          open_timestamp := p.info_open_timestamp
          take_profit_price := falsyDefault0 p.takeProfitPrice
          stop_loss_price := falsyDefault0 p.stopLossPrice }

/-- Embedding of `PerpBitmart.get_open_positions`: normalize each raw position of the
`fetch_positions` response in order, propagating the first raised error. -/
def get_open_positions : List RawPosition → Except Err (List Position)
  | [] => .ok []
  | p :: rest =>
    match normalize_position p with
    | .error e => .error e
    | .ok q =>
      match get_open_positions rest with
      | .error e => .error e
      | .ok qs => .ok (q :: qs)

/-- The raw ccxt order dict, with the fields read by `get_order_by_id`;
`info_side` models the exchange-specific numeric `resp["info"]["side"]`. -/
structure RawOrder where
  id : String
  symbol : String
  type : String
  side : String
  price : ℚ
  amount : ℚ
  filled : ℚ
  remaining : ℚ
  timestamp : Int
  info_side : Int
deriving DecidableEq

/-- Embedding of `PerpBitmart.get_order_by_id`: look up the pair's contract size
(subscripting the `None` returned by `get_pair_info` for an unknown pair
raises `TypeError`), fetch the order (`fetch_order_result` is the oracle
outcome of the connectivity call), scale `amount/filled/remaining` by the
contract size, and set `reduce` exactly when the raw `info.side` code is in
`[2, 3]`. -/
def get_order_by_id (market : Market) (fetch_order_result : Except Err RawOrder)
    (order_id pair : String) : Except Err Order :=
  match get_pair_info market pair with
  | none => .error .typeError
  | some info =>
    match fetch_order_result with
    | .error e => .error e
    | .ok resp =>
      .ok { id := resp.id
            pair := pair_to_ext_pair resp.symbol
            type := resp.type
            side := resp.side
            price := resp.price
            size := resp.amount * info.contractSize
            reduce := resp.info_side == 2 || resp.info_side == 3
            filled := resp.filled * info.contractSize
            remaining := resp.remaining * info.contractSize
            timestamp := resp.timestamp }

/-- The part of the ccxt `create_order` response that `place_order` reads. -/
structure CreateResp where
  id : String
  symbol : String
deriving DecidableEq

/-- The `try` body of `PerpBitmart.place_order`: contract-size lookup
(raising `TypeError` on an unknown pair), `Decimal` division of the size by
the contract size, order creation (`create_result` is the oracle outcome of
`create_order`; the `amount_to_precision` rounding of the passed amount is
abstracted into that oracle), then the follow-up `get_order_by_id` on the id
and symbol of the creation response. -/
def place_order_attempt (market : Market) (create_result : Except Err CreateResp)
    (fetch_order_result : Except Err RawOrder) (pair : String) (size : ℚ) :
    Except Err Order :=
  match get_pair_info market pair with
  | none => .error .typeError
  | some info =>
    match decDiv size info.contractSize with
    | .error e => .error e
    | .ok _sizeInContracts =>
      match create_result with
      | .error e => .error e
      | .ok resp =>
        get_order_by_id market fetch_order_result resp.id (pair_to_ext_pair resp.symbol)

/-- Embedding of `PerpBitmart.place_order`: run the `try` body; on an exception, re-raise
it when `error` is true, otherwise log and return `None`. -/
def place_order (market : Market) (create_result : Except Err CreateResp)
    (fetch_order_result : Except Err RawOrder) (pair : String) (size : ℚ)
    (error : Bool) : Except Err (Option Order) :=
  match place_order_attempt market create_result fetch_order_result pair size with
  | .ok order => .ok (some order)
  | .error e => if error then .error e else .ok none

/-- Embedding of `PerpBitmart.cancel_orders`: best-effort cancellation.  `cancel_result`
is the oracle outcome of the connectivity layer's `cancel_orders` (a list of
cancelled entries on success); any raised error is swallowed into a generic
failure `Info`. -/
def cancel_orders (pair : String) (ids : List String)
    (cancel_result : Except Err (List String)) : Info :=
  match cancel_result with
  | .ok resp => { success := true, message := toString resp.length ++ " Orders cancelled" }
  | .error _ => { success := false, message := "Error or no orders to cancel" }

/-- Embedding of `PerpBitmart.cancel_trigger_orders`: identical shape to `cancel_orders`
(the connectivity call gets `params={"stop": True}`), with its own message. -/
def cancel_trigger_orders (pair : String) (ids : List String)
    (cancel_result : Except Err (List String)) : Info :=
  match cancel_result with
  | .ok resp => { success := true, message := toString resp.length ++ " Trigger Orders cancelled" }
  | .error _ => { success := false, message := "Error or no orders to cancel" }

/-- The per-request candle cap `bitmart_limit` of `get_last_ohlcv`. -/
def bitmart_limit : Nat := 500

/-- The fixed `ts_dict` timeframe-to-milliseconds table of `get_last_ohlcv`;
a timeframe outside the table raises `KeyError`. -/
def ts_dict (timeframe : String) : Option Nat :=
  if timeframe = "1m" then some (1 * 60 * 1000)
  else if timeframe = "5m" then some (5 * 60 * 1000)
  else if timeframe = "15m" then some (15 * 60 * 1000)
  else if timeframe = "1h" then some (60 * 60 * 1000)
  else if timeframe = "2h" then some (2 * 60 * 60 * 1000)
  else if timeframe = "4h" then some (4 * 60 * 60 * 1000)
  else if timeframe = "1d" then some (24 * 60 * 60 * 1000)
  else none

/-- The sub-window loop of `get_last_ohlcv`: starting from `current`, while
`current < endTs` emit the window `(current, min (current + W) endTs)` and
advance `current` by `W + 1`, where `W = bitmart_limit * interval` is the
window span in milliseconds.  The fuel argument makes the recursion
structural; since every iteration advances `current` by `W + 1 ≥ interval + 1`,
and the whole span is `limit * interval`, fuel `limit + 1` (as supplied by
`get_last_ohlcv_windows`) never runs out before the loop guard stops. -/
def mkWindows (endTs W : Nat) : Nat → Nat → List (Nat × Nat)
  | 0, _ => []
  | fuel + 1, current =>
    if current < endTs then
      (current, min (current + W) endTs) :: mkWindows endTs W fuel (current + W + 1)
    else []

/-- The window-generation part of `PerpBitmart.get_last_ohlcv`: look the
timeframe up in `ts_dict` (raising `KeyError` when absent), set
`start_ts = end_ts - limit * interval`, and emit the sub-window list of the
request loop.  Timestamps are in milliseconds since the epoch, as in the
source (`int(time.time() * 1000)`). -/
def get_last_ohlcv_windows (timeframe : String) (end_ts limit : Nat) :
    Except Err (List (Nat × Nat)) :=
  match ts_dict timeframe with
  | none => .error .keyError
  | some interval =>
    .ok (mkWindows end_ts (bitmart_limit * interval) (limit + 1) (end_ts - limit * interval))

/-! ## Helper lemmas -/

lemma stripAllGo_nil (pat : List Char) (f : Nat) : stripAllGo pat f [] = [] := by
  cases f <;> rfl

/-- Scanning `l ++ ":USDT"` with `str.replace(":USDT", "")` removes exactly
the appended suffix when `l` contains no colon: the pattern starts with a
colon, so it can match nowhere inside `l` nor straddling the boundary. -/
lemma stripAllGo_append_colonUSDT :
    ∀ (f : Nat) (l : List Char), l.length + 5 ≤ f → ':' ∉ l →
      stripAllGo ":USDT".toList f (l ++ ":USDT".toList) = l := by
  intro f
  induction f with
  | zero => intro l hlen _; omega
  | succ f ih =>
    intro l hlen hmem
    match l with
    | [] =>
      show stripAllGo ":USDT".toList (f + 1) (':' :: "USDT".toList) = []
      rw [stripAllGo]
      rw [if_pos (by decide)]
      have hdrop : (':' :: "USDT".toList).drop (":USDT".toList).length = [] := by decide
      rw [hdrop, stripAllGo_nil]
    | c :: rest =>
      have hc : c ≠ ':' := fun h => hmem (h ▸ List.mem_cons_self c rest)
      have hrest : ':' ∉ rest := fun h => hmem (List.mem_cons_of_mem c h)
      show stripAllGo ":USDT".toList (f + 1) (c :: (rest ++ ":USDT".toList)) = c :: rest
      rw [stripAllGo]
      rw [if_neg ?hneg]
      case hneg =>
        show ¬ (List.isPrefixOf ":USDT".toList (c :: (rest ++ ":USDT".toList)) = true)
        show ¬ (List.isPrefixOf (':' :: "USDT".toList) (c :: (rest ++ ":USDT".toList)) = true)
        rw [List.isPrefixOf]
        simp only [Bool.and_eq_true, beq_iff_eq]
        intro hcontra
        exact hc hcontra.1.symm
      rw [ih rest (by simp at hlen ⊢; omega) hrest]

/-! ## Claim C4 -/

/-- Claim C4: for every well-formed external pair string `p` (one containing
no colon, e.g. `"BTC-USDT"`), converting it to internal form and back is the
identity: `pair_to_ext_pair (ext_pair_to_pair p) = p`. -/
theorem C4_pair_round_trip (p : String) (h : WellFormedExtPair p) :
    pair_to_ext_pair (ext_pair_to_pair p) = p := by
  obtain ⟨l⟩ := p
  have hmem : ':' ∉ l := h
  show pair_to_ext_pair (String.mk l ++ ":USDT") = String.mk l
  have happ : String.mk l ++ ":USDT" = String.mk (l ++ ":USDT".toList) := rfl
  rw [happ]
  unfold pair_to_ext_pair stripAll
  have htl : (String.mk (l ++ ":USDT".toList)).toList = l ++ ":USDT".toList := rfl
  rw [htl]
  have hlen : (l ++ ":USDT".toList).length = l.length + 5 := by
    simp [List.length_append]
  rw [hlen]
  rw [stripAllGo_append_colonUSDT (l.length + 5) l (le_refl _) hmem]

/-- Concrete round trip witnessing claim C4 at `"BTC-USDT"`. -/
theorem C4_pair_round_trip_witness :
    WellFormedExtPair "BTC-USDT" ∧
      pair_to_ext_pair (ext_pair_to_pair "BTC-USDT") = "BTC-USDT" :=
  ⟨by decide, C4_pair_round_trip "BTC-USDT" (by decide)⟩

/-! ## Claim C5 -/

/-- Claim C5: for a raw balance payload whose first USDT entry is `u`,
`get_balance` returns the record mapping `equity/available_balance/
position_deposit` to `total/free/used`; when the payload has no USDT entry,
`get_balance` fails with the index-out-of-range error of subscripting the
empty filtered list. -/
theorem C5_balance_mapping (resp_data : List RawBalanceEntry) :
    (∀ u, ((resp_data.filter (fun r => r.currency == "USDT")).head? = some u →
      get_balance resp_data =
        .ok { total := u.equity, free := u.available_balance, used := u.position_deposit })) ∧
    ((∀ r ∈ resp_data, r.currency ≠ "USDT") →
      get_balance resp_data = .error .indexError) := by
  constructor
  · intro u hu
    unfold get_balance
    rw [hu]
  · intro hnone
    unfold get_balance
    have hfilter : resp_data.filter (fun r => r.currency == "USDT") = [] := by
      rw [List.filter_eq_nil_iff]
      intro r hr
      simpa using hnone r hr
    rw [hfilter]
    rfl

/-- Concrete payloads witnessing claim C5: one with a USDT entry, one
without. -/
theorem C5_balance_mapping_witness :
    get_balance [{ currency := "BTC", equity := 1, available_balance := 2, position_deposit := 3 },
                 { currency := "USDT", equity := 10, available_balance := 7, position_deposit := 3 }] =
      .ok { total := 10, free := 7, used := 3 } ∧
    get_balance [{ currency := "BTC", equity := 1, available_balance := 2, position_deposit := 3 }] =
      .error .indexError :=
  ⟨(C5_balance_mapping _).1
      { currency := "USDT", equity := 10, available_balance := 7, position_deposit := 3 }
      (by decide),
   (C5_balance_mapping _).2 (by decide)⟩

/-! ## Claim C6 -/

/-- Claim C6: for a margin mode outside `{cross, isolated}`,
`set_margin_mode_and_leverage` raises its validation error with an empty
connectivity-call trace (so before any network call); for a margin mode in
the set, an error of the `set_leverage` connectivity call propagates
unchanged. -/
theorem C6_margin_mode_validation (pair margin_mode : String) (leverage : Int)
    (conn : Except Err Unit) :
    (margin_mode ∉ (["cross", "isolated"] : List String) →
      set_margin_mode_and_leverage pair margin_mode leverage conn =
        (.error (.validationError "Margin mode must be either cross or isolated"), [])) ∧
    (margin_mode ∈ (["cross", "isolated"] : List String) → ∀ e, conn = .error e →
      set_margin_mode_and_leverage pair margin_mode leverage conn =
        (.error e,
         [NetCall.setLeverage leverage (ext_pair_to_pair pair) margin_mode margin_mode])) := by
  constructor
  · intro hnot
    unfold set_margin_mode_and_leverage
    rw [if_neg hnot]
  · intro hmem e he
    unfold set_margin_mode_and_leverage
    rw [if_pos hmem, he]

/-- Concrete inputs witnessing claim C6: the mode `"bogus"` fails with no
connectivity call; the mode `"cross"` propagates a connectivity error. -/
theorem C6_margin_mode_validation_witness :
    set_margin_mode_and_leverage "BTC-USDT" "bogus" 5 (.ok ()) =
      (.error (.validationError "Margin mode must be either cross or isolated"), []) ∧
    set_margin_mode_and_leverage "BTC-USDT" "cross" 5 (.error (.connectivity 42)) =
      (.error (.connectivity 42),
       [NetCall.setLeverage 5 (ext_pair_to_pair "BTC-USDT") "cross" "cross"]) :=
  ⟨(C6_margin_mode_validation "BTC-USDT" "bogus" 5 (.ok ())).1 (by decide),
   (C6_margin_mode_validation "BTC-USDT" "cross" 5 (.error (.connectivity 42))).2
     (by decide) (.connectivity 42) rfl⟩

/-! ## Claim C7 -/

/-- Claim C7: `cancel_orders` and `cancel_trigger_orders` are total
functions into `Info` (no exception of the underlying call propagates: the
oracle outcome is consumed entirely); an error outcome yields
`success = false` with the generic message, and a success outcome yields
`success = true`. -/
theorem C7_cancel_swallow (pair : String) (ids : List String)
    (res res2 : Except Err (List String)) :
    (∀ e, res = .error e → cancel_orders pair ids res =
      { success := false, message := "Error or no orders to cancel" }) ∧
    (∀ l, res = .ok l → (cancel_orders pair ids res).success = true) ∧
    (∀ e, res2 = .error e → cancel_trigger_orders pair ids res2 =
      { success := false, message := "Error or no orders to cancel" }) ∧
    (∀ l, res2 = .ok l → (cancel_trigger_orders pair ids res2).success = true) := by
  refine ⟨fun e he => ?_, fun l hl => ?_, fun e he => ?_, fun l hl => ?_⟩ <;>
    first
      | (rw [he]; rfl)
      | (rw [hl]; rfl)

/-- Concrete outcomes witnessing claim C7 for both cancellation variants. -/
theorem C7_cancel_swallow_witness :
    cancel_orders "BTC-USDT" ["1"] (.error (.connectivity 9)) =
      { success := false, message := "Error or no orders to cancel" } ∧
    (cancel_orders "BTC-USDT" ["1"] (.ok ["1"])).success = true ∧
    cancel_trigger_orders "BTC-USDT" ["1"] (.error .typeError) =
      { success := false, message := "Error or no orders to cancel" } ∧
    (cancel_trigger_orders "BTC-USDT" ["1"] (.ok [])).success = true :=
  ⟨(C7_cancel_swallow "BTC-USDT" ["1"] (.error (.connectivity 9)) (.ok [])).1
      (.connectivity 9) rfl,
   (C7_cancel_swallow "BTC-USDT" ["1"] (.ok ["1"]) (.ok [])).2.1 ["1"] rfl,
   (C7_cancel_swallow "BTC-USDT" ["1"] (.ok []) (.error .typeError)).2.2.1
      .typeError rfl,
   (C7_cancel_swallow "BTC-USDT" ["1"] (.ok []) (.ok [])).2.2.2 [] rfl⟩

/-! ## Position helper lemmas -/

lemma decDiv_ok {a b c : ℚ} (h : decDiv a b = .ok c) : b ≠ 0 ∧ c = a / b := by
  unfold decDiv at h
  split at h
  · split at h <;> exact absurd h (by simp)
  · rename_i hb
    exact ⟨hb, (Except.ok.inj h).symm⟩

lemma decDiv_error_cases {a b : ℚ} {e : Err} (h : decDiv a b = .error e) :
    e = .divisionByZero ∨ e = .invalidOperation := by
  unfold decDiv at h
  split at h
  · split at h
    · exact Or.inr (Except.error.inj h).symm
    · exact Or.inl (Except.error.inj h).symm
  · exact absurd h (by simp)

lemma normalize_position_ok {p : RawPosition} {q : Position}
    (h : normalize_position p = .ok q) :
    p.contracts * p.contractSize ≠ 0 ∧
    q.size = p.contracts * p.contractSize ∧
    q.current_price = p.markPrice / (p.contracts * p.contractSize) ∧
    q.usd_size = pyRound2 p.markPrice := by
  unfold normalize_position at h
  cases hd : decDiv p.markPrice (p.contracts * p.contractSize) with
  | error e => rw [hd] at h; exact absurd h (by simp)
  | ok cp =>
    rw [hd] at h
    obtain ⟨hden, hcp⟩ := decDiv_ok hd
    have hq := (Except.ok.inj h)
    subst hq
    exact ⟨hden, rfl, hcp, rfl⟩

lemma normalize_position_error {p : RawPosition} {e : Err}
    (h : normalize_position p = .error e) :
    e = .divisionByZero ∨ e = .invalidOperation := by
  unfold normalize_position at h
  cases hd : decDiv p.markPrice (p.contracts * p.contractSize) with
  | error e' =>
    rw [hd] at h
    have he := (Except.error.inj h)
    subst he
    exact decDiv_error_cases hd
  | ok cp => rw [hd] at h; exact absurd h (by simp)

/-- Index-wise specification of a successful `get_open_positions` run: the
output has one normalized position per raw position, in order. -/
lemma get_open_positions_ok_spec (raws : List RawPosition) (out : List Position)
    (h : get_open_positions raws = .ok out) :
    out.length = raws.length ∧
    ∀ i (hi : i < raws.length) (ho : i < out.length),
      normalize_position (raws.get ⟨i, hi⟩) = .ok (out.get ⟨i, ho⟩) := by
  induction raws generalizing out with
  | nil =>
    have hout : ([] : List Position) = out := Except.ok.inj h
    subst hout
    exact ⟨rfl, fun i hi _ => absurd hi (Nat.not_lt_zero i)⟩
  | cons p rest ih =>
    rw [get_open_positions] at h
    cases hd : normalize_position p with
    | error e => rw [hd] at h; exact absurd h (by simp)
    | ok q =>
      rw [hd] at h
      cases hrest : get_open_positions rest with
      | error e => rw [hrest] at h; exact absurd h (by simp)
      | ok qs =>
        rw [hrest] at h
        have hout : q :: qs = out := Except.ok.inj h
        subst hout
        obtain ⟨hlen, hidx⟩ := ih qs hrest
        refine ⟨by simp [hlen], ?_⟩
        intro i hi ho
        match i with
        | 0 => exact hd
        | Nat.succ j =>
          have hj : j < rest.length := Nat.lt_of_succ_lt_succ hi
          have hoj : j < qs.length := Nat.lt_of_succ_lt_succ ho
          exact hidx j hj hoj

/-- Evaluation rule for `decDiv` with a nonzero denominator. -/
lemma decDiv_eval_ok {a b : ℚ} (h : b ≠ 0) : decDiv a b = .ok (a / b) := by
  unfold decDiv
  rw [if_neg h]

/-- Evaluation rule for `normalize_position` with a nonzero denominator. -/
lemma normalize_position_eval (p : RawPosition) (h : p.contracts * p.contractSize ≠ 0) :
    normalize_position p = .ok
      { pair := pair_to_ext_pair p.symbol
        side := p.side
        size := p.contracts * p.contractSize
        usd_size := pyRound2 p.markPrice
        entry_price := p.entryPrice
        current_price := p.markPrice / (p.contracts * p.contractSize)
        unrealizedPnl := p.unrealizedPnl
        liquidation_price := falsyDefault0 p.liquidationPrice
        margin_mode := p.info_margin_type
        leverage := p.leverage
        hedge_mode := match p.hedged with | some true => true | _ => false
        open_timestamp := p.info_open_timestamp
        take_profit_price := falsyDefault0 p.takeProfitPrice
        stop_loss_price := falsyDefault0 p.stopLossPrice } := by
  unfold normalize_position
  rw [decDiv_eval_ok h]

/-- Evaluation of `get_open_positions` on a one-element raw response. -/
lemma get_open_positions_singleton {p : RawPosition} {q : Position}
    (h : normalize_position p = .ok q) : get_open_positions [p] = .ok [q] := by
  simp [get_open_positions, h]

/-- Evaluation rule for `pyRound2` when the scaled value rounds down:
`f ≤ 100 q < f + 1` with fractional part below one half. -/
lemma pyRound2_eval_down (q : ℚ) (f : ℤ) (h1 : (f : ℚ) ≤ q * 100)
    (h2 : q * 100 < f + 1) (h3 : q * 100 - f < 1 / 2) :
    pyRound2 q = (f : ℚ) / 100 := by
  have hf : ⌊q * 100⌋ = f := Int.floor_eq_iff.mpr ⟨h1, by exact_mod_cast h2⟩
  simp only [pyRound2, roundHalfEven, hf]
  rw [if_pos h3]

/-- Evaluation rule for `pyRound2` when the scaled value rounds up:
`f ≤ 100 q < f + 1` with fractional part above one half. -/
lemma pyRound2_eval_up (q : ℚ) (f : ℤ) (h1 : (f : ℚ) ≤ q * 100)
    (h2 : q * 100 < f + 1) (h3 : 1 / 2 < q * 100 - f) :
    pyRound2 q = ((f : ℚ) + 1) / 100 := by
  have hf : ⌊q * 100⌋ = f := Int.floor_eq_iff.mpr ⟨h1, by exact_mod_cast h2⟩
  simp only [pyRound2, roundHalfEven, hf]
  rw [if_neg (by linarith), if_pos h3]
  push_cast
  ring

/-! ## Claim C1 -/

/-- Claim C1: on a successful `get_open_positions` run, every returned
position's `size` is `contracts * contractSize` of its raw position and its
`current_price` is `markPrice / (contracts * contractSize)`; equality is
exact in the rational model, hence within any floating-point tolerance. -/
theorem C1_position_size_and_price (raws : List RawPosition) (out : List Position)
    (h : get_open_positions raws = .ok out) :
    out.length = raws.length ∧
    ∀ i (hi : i < raws.length) (ho : i < out.length),
      (out.get ⟨i, ho⟩).size =
        (raws.get ⟨i, hi⟩).contracts * (raws.get ⟨i, hi⟩).contractSize ∧
      (out.get ⟨i, ho⟩).current_price =
        (raws.get ⟨i, hi⟩).markPrice /
          ((raws.get ⟨i, hi⟩).contracts * (raws.get ⟨i, hi⟩).contractSize) := by
  obtain ⟨hlen, hidx⟩ := get_open_positions_ok_spec raws out h
  refine ⟨hlen, fun i hi ho => ?_⟩
  obtain ⟨-, hsz, hcp, -⟩ := normalize_position_ok (hidx i hi ho)
  exact ⟨hsz, hcp⟩

/-- Sample raw position used by the C1 witness: `contracts = 3`,
`contractSize = 2`, `markPrice = 12`. -/
def rawSampleC1 : RawPosition :=
  { symbol := "BTC-USDT:USDT", side := "long", contracts := 3, contractSize := 2
    markPrice := 12, entryPrice := 2, unrealizedPnl := 0, liquidationPrice := none
    takeProfitPrice := none, stopLossPrice := none, hedged := none, leverage := 5
    info_margin_type := "cross", info_open_timestamp := 1700000000000 }

/-- The position that `get_open_positions` produces from `rawSampleC1`. -/
def outSampleC1 : Position :=
  { pair := "BTC-USDT", side := "long", size := 6, usd_size := 12, entry_price := 2
    current_price := 2, unrealizedPnl := 0, liquidation_price := 0
    margin_mode := "cross", leverage := 5, hedge_mode := false
    open_timestamp := 1700000000000, take_profit_price := 0, stop_loss_price := 0 }

/-- Concrete run witnessing claim C1: `size = 3 * 2 = 6` and
`current_price = 12 / 6 = 2`. -/
theorem C1_position_size_and_price_witness :
    get_open_positions [rawSampleC1] = .ok [outSampleC1] ∧
    outSampleC1.size = rawSampleC1.contracts * rawSampleC1.contractSize ∧
    outSampleC1.current_price =
      rawSampleC1.markPrice / (rawSampleC1.contracts * rawSampleC1.contractSize) := by
  have h : get_open_positions [rawSampleC1] = .ok [outSampleC1] := by
    apply get_open_positions_singleton
    rw [normalize_position_eval rawSampleC1 (by norm_num [rawSampleC1])]
    have hpair : pair_to_ext_pair "BTC-USDT:USDT" = "BTC-USDT" := by decide
    have hround : pyRound2 (12 : ℚ) = 12 := by
      rw [pyRound2_eval_down 12 1200 (by norm_num) (by norm_num) (by norm_num)]
      norm_num
    simp [rawSampleC1, outSampleC1, falsyDefault0, hpair, hround]
    norm_num
  have hc := (C1_position_size_and_price [rawSampleC1] [outSampleC1] h).2 0
    (by decide) (by decide)
  exact ⟨h, hc.1, hc.2⟩

/-! ## Claim C10 -/

/-- Sample raw position for the negative part of claim C10:
`contracts = 2`, `contractSize = 3`, `markPrice = 10.567`, `entryPrice = 2`. -/
def rawSampleC10 : RawPosition :=
  { symbol := "ETH-USDT:USDT", side := "long", contracts := 2, contractSize := 3
    markPrice := 10567 / 1000, entryPrice := 2, unrealizedPnl := 0
    liquidationPrice := none, takeProfitPrice := none, stopLossPrice := none
    hedged := none, leverage := 3, info_margin_type := "isolated"
    info_open_timestamp := 1700000000001 }

/-- Claim C10: on a successful `get_open_positions` run, every returned
position's `usd_size` equals `round(markPrice, 2)` of its raw position; and
at the sample position it differs from `size` times each of the raw mark
price, the derived current price, and the entry price, so it is not a
size-times-price notional. -/
theorem C10_usd_size_is_rounded_mark_price (raws : List RawPosition) (out : List Position)
    (h : get_open_positions raws = .ok out) :
    (out.length = raws.length ∧
     ∀ i (hi : i < raws.length) (ho : i < out.length),
       (out.get ⟨i, ho⟩).usd_size = pyRound2 ((raws.get ⟨i, hi⟩).markPrice)) ∧
    (∀ q, normalize_position rawSampleC10 = .ok q →
       q.usd_size ≠ q.size * rawSampleC10.markPrice ∧
       q.usd_size ≠ q.size * q.current_price ∧
       q.usd_size ≠ q.size * q.entry_price) := by
  obtain ⟨hlen, hidx⟩ := get_open_positions_ok_spec raws out h
  have hround : pyRound2 ((10567 : ℚ) / 1000) = 1057 / 100 := by
    rw [pyRound2_eval_up ((10567 : ℚ) / 1000) 1056 (by norm_num) (by norm_num) (by norm_num)]
    norm_num
  constructor
  · refine ⟨hlen, fun i hi ho => ?_⟩
    obtain ⟨-, -, -, hus⟩ := normalize_position_ok (hidx i hi ho)
    exact hus
  · intro q hq
    rw [normalize_position_eval rawSampleC10 (by norm_num [rawSampleC10])] at hq
    have hq' := Except.ok.inj hq
    subst hq'
    refine ⟨?_, ?_, ?_⟩ <;> simp [rawSampleC10, hround] <;> norm_num

/-- The position that `get_open_positions` produces from `rawSampleC10`. -/
def outSampleC10 : Position :=
  { pair := "ETH-USDT", side := "long", size := 6, usd_size := 1057 / 100
    entry_price := 2, current_price := 10567 / 6000, unrealizedPnl := 0
    liquidation_price := 0, margin_mode := "isolated", leverage := 3
    hedge_mode := false, open_timestamp := 1700000000001
    take_profit_price := 0, stop_loss_price := 0 }

/-- Concrete run witnessing claim C10: `usd_size = round(10.567, 2) = 10.57`,
which differs from `size * markPrice = 63.402`. -/
theorem C10_usd_size_is_rounded_mark_price_witness :
    get_open_positions [rawSampleC10] = .ok [outSampleC10] ∧
    outSampleC10.usd_size = pyRound2 rawSampleC10.markPrice ∧
    outSampleC10.usd_size ≠ outSampleC10.size * rawSampleC10.markPrice := by
  have hround : pyRound2 ((10567 : ℚ) / 1000) = 1057 / 100 := by
    rw [pyRound2_eval_up ((10567 : ℚ) / 1000) 1056 (by norm_num) (by norm_num) (by norm_num)]
    norm_num
  have hnorm : normalize_position rawSampleC10 = .ok outSampleC10 := by
    rw [normalize_position_eval rawSampleC10 (by norm_num [rawSampleC10])]
    have hpair : pair_to_ext_pair "ETH-USDT:USDT" = "ETH-USDT" := by decide
    simp [rawSampleC10, outSampleC10, falsyDefault0, hpair, hround]
    norm_num
  have h : get_open_positions [rawSampleC10] = .ok [outSampleC10] :=
    get_open_positions_singleton hnorm
  have h1 := (C10_usd_size_is_rounded_mark_price [rawSampleC10] [outSampleC10] h).1.2 0
    (by decide) (by decide)
  have h2 := ((C10_usd_size_is_rounded_mark_price [rawSampleC10] [outSampleC10] h).2
    outSampleC10 hnorm).1
  exact ⟨h, h1, h2⟩

/-! ## Claim C9 -/

/-- Evaluation of `normalize_position` on a zero denominator: the `Decimal`
division raises `InvalidOperation` when `markPrice` is zero as well (the
`0 / 0` signal) and `DivisionByZero` otherwise. -/
lemma normalize_position_zero_den (p : RawPosition)
    (h : p.contracts * p.contractSize = 0) :
    normalize_position p =
      .error (if p.markPrice = 0 then Err.invalidOperation else Err.divisionByZero) := by
  unfold normalize_position decDiv
  rw [if_pos h]
  split_ifs <;> rfl

/-- Claim C9 (amended): when the raw response contains a position with zero
`contracts` or zero `contractSize`, `get_open_positions` fails while
re-deriving `current_price` instead of returning a record, and the exception
is determined by the first such position `p0` (earlier positions normalize
without raising): `decimal.DivisionByZero` when `p0.markPrice` is nonzero,
and `decimal.InvalidOperation` (the `0 / 0` signal, which is not a
division-by-zero-class exception) when `p0.markPrice` is zero as well. -/
theorem C9_zero_contract_division_failure :
    ∀ (raws : List RawPosition) (p0 : RawPosition),
      raws.find? (fun p => p.contracts == 0 || p.contractSize == 0) = some p0 →
      get_open_positions raws =
        .error (if p0.markPrice = 0 then Err.invalidOperation else Err.divisionByZero) := by
  intro raws
  induction raws with
  | nil =>
    intro p0 hfind
    exact absurd hfind (by simp)
  | cons p rest ih =>
    intro p0 hfind
    by_cases hp : (p.contracts == 0 || p.contractSize == 0) = true
    · have hstep : List.find? (fun q => q.contracts == 0 || q.contractSize == 0) (p :: rest) =
          some p := List.find?_cons_of_pos rest hp
      rw [hstep] at hfind
      obtain rfl := Option.some.inj hfind
      have hz : p.contracts = 0 ∨ p.contractSize = 0 := by
        simpa [Bool.or_eq_true, beq_iff_eq] using hp
      have hden : p.contracts * p.contractSize = 0 := by
        rcases hz with h1 | h1
        · rw [h1, zero_mul]
        · rw [h1, mul_zero]
      simp [get_open_positions, normalize_position_zero_den p hden]
    · have hstep : List.find? (fun q => q.contracts == 0 || q.contractSize == 0) (p :: rest) =
          List.find? (fun q => q.contracts == 0 || q.contractSize == 0) rest :=
        List.find?_cons_of_neg rest hp
      rw [hstep] at hfind
      have hden : p.contracts * p.contractSize ≠ 0 := by
        intro h0
        rcases mul_eq_zero.mp h0 with h1 | h1 <;> simp [h1] at hp
      have hok := normalize_position_eval p hden
      have hrest := ih p0 hfind
      simp [get_open_positions, hok, hrest]

/-- Sample raw position for the C9 counterexample: zero `contracts` and zero
`markPrice`. -/
def rawSampleC9z : RawPosition :=
  { symbol := "BTC-USDT:USDT", side := "long", contracts := 0, contractSize := 1
    markPrice := 0, entryPrice := 2, unrealizedPnl := 0, liquidationPrice := none
    takeProfitPrice := none, stopLossPrice := none, hedged := none, leverage := 5
    info_margin_type := "cross", info_open_timestamp := 1700000000000 }

/-- Counterexample to claim C9 as stated: with `contracts = 0` and
`markPrice = 0` the failing `Decimal` division is `0 / 0`, which raises
`decimal.InvalidOperation`, not a division-by-zero error. -/
theorem C9_counterexample :
    rawSampleC9z.contracts = 0 ∧
    get_open_positions [rawSampleC9z] = .error .invalidOperation ∧
    get_open_positions [rawSampleC9z] ≠ .error .divisionByZero := by
  have hnorm : normalize_position rawSampleC9z = .error .invalidOperation := by
    unfold normalize_position decDiv
    rw [if_pos (by norm_num [rawSampleC9z] : rawSampleC9z.contracts * rawSampleC9z.contractSize = 0),
        if_pos (by norm_num [rawSampleC9z] : rawSampleC9z.markPrice = 0)]
  have hrun : get_open_positions [rawSampleC9z] = .error .invalidOperation := by
    simp [get_open_positions, hnorm]
  exact ⟨rfl, hrun, by rw [hrun]; intro hc; exact absurd (Except.error.inj hc) (by decide)⟩

/-- Sample raw position for the C9 witness: zero `contracts` with a nonzero
`markPrice`. -/
def rawSampleC9 : RawPosition :=
  { symbol := "BTC-USDT:USDT", side := "long", contracts := 0, contractSize := 1
    markPrice := 5, entryPrice := 2, unrealizedPnl := 0, liquidationPrice := none
    takeProfitPrice := none, stopLossPrice := none, hedged := none, leverage := 5
    info_margin_type := "cross", info_open_timestamp := 1700000000000 }

/-- Concrete run witnessing the amended claim C9: the first (and only)
offending position has `contracts = 0` with `markPrice = 5 ≠ 0`, and the run
fails with `decimal.DivisionByZero` specifically. -/
theorem C9_zero_contract_division_failure_witness :
    List.find? (fun p => p.contracts == 0 || p.contractSize == 0) [rawSampleC9] =
      some rawSampleC9 ∧
    rawSampleC9.markPrice ≠ 0 ∧
    get_open_positions [rawSampleC9] = .error .divisionByZero := by
  have hfind : List.find? (fun p => p.contracts == 0 || p.contractSize == 0)
      [rawSampleC9] = some rawSampleC9 := by decide
  have hm : rawSampleC9.markPrice ≠ 0 := by norm_num [rawSampleC9]
  have h := C9_zero_contract_division_failure [rawSampleC9] rawSampleC9 hfind
  rw [if_neg hm] at h
  exact ⟨hfind, hm, h⟩

/-! ## Claim C8 -/

/-- Claim C8: a successful `get_order_by_id` scales the raw `amount`,
`filled` and `remaining` by the pair's contract size into `size`, `filled`
and `remaining`, and sets `reduce` exactly when the exchange-specific
numeric side code `info.side` is in `{2, 3}`. -/
theorem C8_order_contract_scaling (market : Market) (fetch : Except Err RawOrder)
    (oid pair : String) (info : PairInfo) (resp : RawOrder) (o : Order)
    (hinfo : get_pair_info market pair = some info)
    (hfetch : fetch = .ok resp)
    (h : get_order_by_id market fetch oid pair = .ok o) :
    o.size = resp.amount * info.contractSize ∧
    o.filled = resp.filled * info.contractSize ∧
    o.remaining = resp.remaining * info.contractSize ∧
    (o.reduce = true ↔ (resp.info_side = 2 ∨ resp.info_side = 3)) := by
  unfold get_order_by_id at h
  rw [hinfo, hfetch] at h
  have ho := Except.ok.inj h
  subst ho
  refine ⟨rfl, rfl, rfl, ?_⟩
  show (resp.info_side == 2 || resp.info_side == 3) = true ↔ _
  simp [Bool.or_eq_true, beq_iff_eq]

/-- Market sample for the C8 witness: contract size `2`. -/
def marketSampleC8 : Market := [("OP-USDT:USDT", { contractSize := 2 })]

/-- Raw order sample for the C8 witness: side code `2` (a reduce code). -/
def rawOrderSampleC8 : RawOrder :=
  { id := "42", symbol := "OP-USDT:USDT", type := "limit", side := "buy"
    price := 1, amount := 5, filled := 1, remaining := 4
    timestamp := 1700000000000, info_side := 2 }

/-- The order that `get_order_by_id` produces from `rawOrderSampleC8`. -/
def orderSampleC8 : Order :=
  { id := "42", pair := "OP-USDT", type := "limit", side := "buy", price := 1
    size := 10, reduce := true, filled := 2, remaining := 8
    timestamp := 1700000000000 }

/-- Concrete run witnessing claim C8: `size = 5 * 2 = 10`, `filled = 1 * 2`,
`remaining = 4 * 2`, `reduce = true` from side code `2`. -/
theorem C8_order_contract_scaling_witness :
    get_order_by_id marketSampleC8 (.ok rawOrderSampleC8) "42" "OP-USDT" = .ok orderSampleC8 ∧
    orderSampleC8.size = rawOrderSampleC8.amount * (2 : ℚ) ∧
    (orderSampleC8.reduce = true ↔
      (rawOrderSampleC8.info_side = 2 ∨ rawOrderSampleC8.info_side = 3)) := by
  have hinfo : get_pair_info marketSampleC8 "OP-USDT" = some { contractSize := 2 } := by
    decide
  have hpair : pair_to_ext_pair "OP-USDT:USDT" = "OP-USDT" := by decide
  have h : get_order_by_id marketSampleC8 (.ok rawOrderSampleC8) "42" "OP-USDT" =
      .ok orderSampleC8 := by
    simp only [get_order_by_id, hinfo]
    simp [rawOrderSampleC8, orderSampleC8, Order.mk.injEq, hpair]
    norm_num
  have hc := C8_order_contract_scaling marketSampleC8 (.ok rawOrderSampleC8) "42" "OP-USDT"
    { contractSize := 2 } rawOrderSampleC8 orderSampleC8 hinfo rfl h
  exact ⟨h, hc.1, hc.2.2.2⟩

/-! ## Claim C3 -/

/-- Claim C3: when the underlying order creation, or the follow-up lookup by
the returned order id, fails with an exception `e` (the earlier local steps
succeeding), `place_order` with `error = true` propagates `e`, and with
`error = false` swallows it and returns the absent value `None`. -/
theorem C3_place_order_dual_mode (market : Market) (create : Except Err CreateResp)
    (fetch : Except Err RawOrder) (pair : String) (size : ℚ) (info : PairInfo) (e : Err)
    (hinfo : get_pair_info market pair = some info)
    (hcs : info.contractSize ≠ 0)
    (hfail : create = .error e ∨
      ∃ r, create = .ok r ∧
        get_order_by_id market fetch r.id (pair_to_ext_pair r.symbol) = .error e) :
    place_order market create fetch pair size true = .error e ∧
    place_order market create fetch pair size false = .ok none := by
  have hatt : place_order_attempt market create fetch pair size = .error e := by
    simp only [place_order_attempt, hinfo, decDiv_eval_ok hcs]
    rcases hfail with hc | ⟨r, hc, hf⟩
    · rw [hc]
    · rw [hc]
      exact hf
  unfold place_order
  rw [hatt]
  exact ⟨rfl, rfl⟩

/-- Market sample for the C3 witness: contract size `1`. -/
def marketSampleC3 : Market := [("BTC-USDT:USDT", { contractSize := 1 })]

/-- Concrete run witnessing claim C3: a failed creation propagates with
`error = true` and yields `None` with `error = false`. -/
theorem C3_place_order_dual_mode_witness :
    place_order marketSampleC3 (.error (.connectivity 500)) (.error .typeError)
      "BTC-USDT" 3 true = .error (.connectivity 500) ∧
    place_order marketSampleC3 (.error (.connectivity 500)) (.error .typeError)
      "BTC-USDT" 3 false = .ok none :=
  C3_place_order_dual_mode marketSampleC3 (.error (.connectivity 500)) (.error .typeError)
    "BTC-USDT" 3 { contractSize := 1 } (.connectivity 500)
    (by decide) (by norm_num) (Or.inl rfl)

/-! ## Window lemmas for claim C2 -/

lemma mkWindows_succ (e W f c : Nat) :
    mkWindows e W (f + 1) c =
      if c < e then (c, min (c + W) e) :: mkWindows e W f (c + W + 1) else [] := rfl

lemma mkWindows_stop (e W f c : Nat) (h : ¬ c < e) : mkWindows e W f c = [] := by
  cases f with
  | zero => rfl
  | succ f => rw [mkWindows_succ, if_neg h]

lemma mkWindows_eq_nil_iff (e W f c : Nat) :
    mkWindows e W f c = [] ↔ (f = 0 ∨ ¬ c < e) := by
  cases f with
  | zero => simp [mkWindows]
  | succ f =>
    rw [mkWindows_succ]
    by_cases hc : c < e
    · rw [if_pos hc]; simp [hc]
    · rw [if_neg hc]; simp [hc]

lemma mkWindows_head (e W f c : Nat) (hf : 1 ≤ f) (hc : c < e) :
    (mkWindows e W f c).head? = some (c, min (c + W) e) := by
  cases f with
  | zero => omega
  | succ f => rw [mkWindows_succ, if_pos hc]; rfl

/-- Every emitted window spans at most `W` milliseconds. -/
lemma mkWindows_span (e W : Nat) : ∀ f c, ∀ w ∈ mkWindows e W f c, w.2 - w.1 ≤ W := by
  intro f
  induction f with
  | zero => intro c w hw; exact absurd hw (List.not_mem_nil w)
  | succ f ih =>
    intro c w hw
    rw [mkWindows_succ] at hw
    by_cases hc : c < e
    · rw [if_pos hc] at hw
      rcases List.mem_cons.mp hw with rfl | hw'
      · have := Nat.min_le_left (c + W) e
        simp only []
        omega
      · exact ih _ w hw'
    · rw [if_neg hc] at hw; exact absurd hw (List.not_mem_nil w)

/-- Consecutive windows have the next start exactly one millisecond after
the previous end. -/
lemma mkWindows_chain (e W : Nat) :
    ∀ f c, List.Chain' (fun p q : Nat × Nat => q.1 = p.2 + 1) (mkWindows e W f c) := by
  intro f
  induction f with
  | zero => intro c; exact List.chain'_nil
  | succ f ih =>
    intro c
    rw [mkWindows_succ]
    by_cases hc : c < e
    · rw [if_pos hc]
      rw [List.chain'_cons']
      refine ⟨?_, ih _⟩
      intro b hb
      by_cases hrest : mkWindows e W f (c + W + 1) = []
      · rw [hrest] at hb; exact absurd hb (by simp)
      · have hf1 : 1 ≤ f := by
          rcases Nat.eq_zero_or_pos f with rfl | h
          · exact absurd rfl hrest
          · exact h
        have hlt : c + W + 1 < e := by
          by_contra hnot
          exact hrest (mkWindows_stop e W f _ hnot)
        rw [mkWindows_head e W f _ hf1 hlt] at hb
        rw [Option.mem_def] at hb
        have hb' := Option.some.inj hb
        subst hb'
        show c + W + 1 = min (c + W) e + 1
        rw [Nat.min_eq_left (by omega)]
    · rw [if_neg hc]; exact List.chain'_nil

lemma getLast?_cons_ne_nil {α : Type} (a : α) {l : List α} (h : l ≠ []) :
    (a :: l).getLast? = l.getLast? := by
  cases l with
  | nil => exact absurd rfl h
  | cons b t => rfl

/-- End timestamp of the last emitted window: `e`, except when `W + 1`
exactly divides the remaining span `e - c`, in which case the loop guard
stops one millisecond short and the last window ends at `e - 1`. -/
lemma mkWindows_lastEnd (e W : Nat) :
    ∀ f c, c < e → e - c ≤ f * (W + 1) →
      (mkWindows e W f c).getLast?.map Prod.snd =
        some (if (W + 1) ∣ (e - c) then e - 1 else e) := by
  intro f
  induction f with
  | zero => intro c hc hfuel; exfalso; omega
  | succ f ih =>
    intro c hc hfuel
    rw [mkWindows_succ, if_pos hc]
    by_cases hnext : c + W + 1 < e
    · have hexp : (f + 1) * (W + 1) = f * (W + 1) + (W + 1) := by ring
      rw [hexp] at hfuel
      have hf1 : 1 ≤ f := by
        by_contra h0
        have hf0 : f = 0 := by omega
        subst hf0
        simp at hfuel
        omega
      have hrest_ne : mkWindows e W f (c + W + 1) ≠ [] := by
        rw [Ne, mkWindows_eq_nil_iff]
        push_neg
        exact ⟨by omega, hnext⟩
      rw [getLast?_cons_ne_nil _ hrest_ne]
      have hdvd : ((W + 1) ∣ (e - (c + W + 1))) ↔ ((W + 1) ∣ (e - c)) := by
        have heq : e - c = (W + 1) + (e - (c + W + 1)) := by omega
        rw [heq]
        exact (Nat.dvd_add_right (Nat.dvd_refl (W + 1))).symm
      rw [ih (c + W + 1) hnext (by omega)]
      simp only [hdvd]
    · have hrest : mkWindows e W f (c + W + 1) = [] := mkWindows_stop e W f _ hnext
      rw [hrest]
      show some ((c, min (c + W) e).2) = _
      by_cases hW : c + W + 1 = e
      · have hmin : min (c + W) e = c + W := Nat.min_eq_left (by omega)
        have hdvd : (W + 1) ∣ (e - c) := ⟨1, by omega⟩
        rw [hmin, if_pos hdvd]
        congr 1
        omega
      · have he : e ≤ c + W := by omega
        have hmin : min (c + W) e = e := Nat.min_eq_right he
        have hdvd : ¬ (W + 1) ∣ (e - c) := by
          intro hd
          have hpos : 0 < e - c := by omega
          have := Nat.le_of_dvd hpos hd
          omega
        rw [hmin, if_neg hdvd]

lemma ts_dict_pos {tf : String} {T : Nat} (h : ts_dict tf = some T) : 0 < T := by
  unfold ts_dict at h
  split_ifs at h <;> (cases h; decide)

/-! ## Claim C2 -/

/-- Claim C2 (amended): for every timeframe of the fixed table and every
limit of at least one candle (with `end_ts` at least the requested span, as
for any realistic clock value), the generated sub-windows tile
`[end_ts - limit * interval, end_ts]`: the first window starts at
`end_ts - limit * interval`, every window spans at most
`bitmart_limit * interval` milliseconds (at most 500 candles), each
consecutive window starts exactly one millisecond after the previous one
ends, and the last window ends at `end_ts` — except when
`bitmart_limit * interval + 1` exactly divides `limit * interval`, in which
case the loop guard stops one millisecond short and the last window ends at
`end_ts - 1`, leaving the final millisecond uncovered. -/
theorem C2_window_tiling (tf : String) (T limit end_ts : Nat) (ws : List (Nat × Nat))
    (htf : ts_dict tf = some T)
    (hlim : 1 ≤ limit)
    (hspan : limit * T ≤ end_ts)
    (hws : get_last_ohlcv_windows tf end_ts limit = .ok ws) :
    ws.head?.map Prod.fst = some (end_ts - limit * T) ∧
    (∀ w ∈ ws, w.2 - w.1 ≤ bitmart_limit * T) ∧
    List.Chain' (fun p q : Nat × Nat => q.1 = p.2 + 1) ws ∧
    ws.getLast?.map Prod.snd =
      some (if (bitmart_limit * T + 1) ∣ (limit * T) then end_ts - 1 else end_ts) := by
  have hT := ts_dict_pos htf
  unfold get_last_ohlcv_windows at hws
  rw [htf] at hws
  have hws' := Except.ok.inj hws
  subst hws'
  have hclt : end_ts - limit * T < end_ts := by
    have hpos : 0 < limit * T := Nat.mul_pos (by omega) hT
    omega
  have hspan' : end_ts - (end_ts - limit * T) = limit * T := by omega
  refine ⟨?_, ?_, ?_, ?_⟩
  · rw [mkWindows_head end_ts (bitmart_limit * T) (limit + 1) _ (by omega) hclt]
    rfl
  · exact mkWindows_span end_ts (bitmart_limit * T) (limit + 1) _
  · exact mkWindows_chain end_ts (bitmart_limit * T) (limit + 1) _
  · rw [mkWindows_lastEnd end_ts (bitmart_limit * T) (limit + 1) _ hclt ?fuel]
    · rw [hspan']
    case fuel =>
      rw [hspan']
      calc limit * T ≤ (limit + 1) * T := Nat.mul_le_mul_right T (by omega)
        _ ≤ (limit + 1) * (bitmart_limit * T + 1) :=
            Nat.mul_le_mul_left (limit + 1) (by unfold bitmart_limit; omega)

/-- Counterexample to claim C2 as stated: for timeframe `"1m"`
(`interval = 60000` ms) and `limit = 30000001`, the span
`limit * interval = 30000001 * 60000` is an exact multiple of the loop step
`bitmart_limit * interval + 1 = 30000001`, so the last generated sub-window
ends at `end_ts - 1`, not at `end_ts`. -/
theorem C2_counterexample :
    (get_last_ohlcv_windows "1m" 1800000060000 30000001).map
        (fun ws => ws.getLast?.map Prod.snd) =
      .ok (some 1800000059999) ∧
    (1800000059999 : Nat) ≠ 1800000060000 := by
  constructor
  · have h1 : ts_dict "1m" = some 60000 := by decide
    have hrun : get_last_ohlcv_windows "1m" 1800000060000 30000001 =
        .ok (mkWindows 1800000060000 (bitmart_limit * 60000) 30000002 0) := by
      unfold get_last_ohlcv_windows
      rw [h1]
    rw [hrun]
    show Except.ok ((mkWindows 1800000060000 (bitmart_limit * 60000)
      30000002 0).getLast?.map Prod.snd) = Except.ok (some 1800000059999)
    rw [mkWindows_lastEnd 1800000060000 (bitmart_limit * 60000) 30000002 0
        (by norm_num) (by norm_num [bitmart_limit])]
    have hdvd : (bitmart_limit * 60000 + 1) ∣ (1800000060000 - 0) :=
      ⟨60000, by norm_num [bitmart_limit]⟩
    rw [if_pos hdvd]
  · norm_num

/-- Concrete run witnessing the amended claim C2: timeframe `"1h"`,
`limit = 1000`, `end_ts = 7200000000`, yielding two sub-windows
`(3600000000, 5400000000)` and `(5400000001, 7200000000)`: the first starts
at `end_ts - limit * interval`, the second starts 1 ms after the first ends,
both span at most 500 candles, and here the last window ends at `end_ts`
(the divisibility exception does not apply). -/
theorem C2_window_tiling_witness :
    get_last_ohlcv_windows "1h" 7200000000 1000 =
      .ok [(3600000000, 5400000000), (5400000001, 7200000000)] ∧
    ([(3600000000, 5400000000), (5400000001, 7200000000)] : List (Nat × Nat)).head?.map
        Prod.fst = some (7200000000 - 1000 * 3600000) ∧
    5400000000 - 3600000000 ≤ bitmart_limit * 3600000 ∧
    7200000000 - 5400000001 ≤ bitmart_limit * 3600000 ∧
    List.Chain' (fun p q : Nat × Nat => q.1 = p.2 + 1)
      [(3600000000, 5400000000), (5400000001, 7200000000)] ∧
    ([(3600000000, 5400000000), (5400000001, 7200000000)] : List (Nat × Nat)).getLast?.map
        Prod.snd =
      some (if (bitmart_limit * 3600000 + 1) ∣ (1000 * 3600000) then 7200000000 - 1
        else 7200000000) := by
  have h : get_last_ohlcv_windows "1h" 7200000000 1000 =
      .ok [(3600000000, 5400000000), (5400000001, 7200000000)] := by
    have h1 : ts_dict "1h" = some 3600000 := by decide
    unfold get_last_ohlcv_windows
    rw [h1]
    decide
  have hc := C2_window_tiling "1h" 3600000 1000 7200000000 _ (by decide) (by norm_num)
    (by norm_num) h
  exact ⟨h, hc.1, hc.2.1 (3600000000, 5400000000) (by simp),
    hc.2.1 (5400000001, 7200000000) (by simp), hc.2.2.1, hc.2.2.2⟩
